import Mathlib

/-!
Shallow embedding of the WaveSmith editing/synthesis core
(`src/config.js`, `src/dataModel.js`, `src/main.js`, the interaction handler
and canvas renderer modules), with theorems settling the specification
claims about it.  JS numbers are modeled as rationals; JS arrays as lists
(push = append at the right end, pop = last element, shift = drop the first);
the `JSON.stringify`/`JSON.parse` snapshot round-trip is a value copy.
-/

namespace WaveSmith

set_option maxRecDepth 100000

/-- A waveform control point `{ time, amplitude }` (dataModel.js). -/
structure Point where
  time : ℚ
  amplitude : ℚ
deriving DecidableEq

/-- The comparator `(a, b) => a.time - b.time`: order by non-decreasing time. -/
def timeLE (a b : Point) : Prop := a.time ≤ b.time

instance : DecidableRel timeLE := fun a b => inferInstanceAs (Decidable (a.time ≤ b.time))

instance : IsTotal Point timeLE := ⟨fun a b => le_total a.time b.time⟩

instance : IsTrans Point timeLE := ⟨fun _ _ _ => le_trans⟩

/-- `points.sort((a, b) => a.time - b.time)`, as a stable sort by time. -/
def sortByTime (l : List Point) : List Point := List.insertionSort timeLE l

/-- `CONFIG.MAX_UNDO` from config.js (`DEFAULT_CONFIG.MAX_UNDO = 50`). -/
def MAX_UNDO : ℕ := 50

/-- `CONFIG.DEFAULT_DURATION` from config.js. -/
def DEFAULT_DURATION : ℚ := 10

/-- `CONFIG.DEFAULT_ZOOM` from config.js. -/
def DEFAULT_ZOOM : ℚ := 10

/-- The `DataModel` class state (dataModel.js).  The JS `Set` of selected
points is modeled as an insertion-ordered list; undo/redo stacks hold
sequence snapshots by value. -/
structure DataModel where
  points : List Point
  selectedPoints : List Point
  selectedPoint : Option Point
  copiedPoints : List Point
  undoStack : List (List Point)
  redoStack : List (List Point)
  duration : ℚ
  zoom : ℚ
  pan : ℚ
deriving DecidableEq

/-- The freshly constructed `DataModel` (constructor in dataModel.js). -/
def initModel : DataModel :=
  { points := [], selectedPoints := [], selectedPoint := none, copiedPoints := []
    undoStack := [], redoStack := []
    duration := DEFAULT_DURATION, zoom := DEFAULT_ZOOM, pan := 0 }

/-- `DataModel.saveState`: push a snapshot of the current points, evict the
oldest (`shift`) when the depth exceeds `CONFIG.MAX_UNDO || 20` (= 50),
clear the redo stack. -/
def DataModel.saveState (m : DataModel) : DataModel :=
  let pushed := m.undoStack ++ [m.points]
  { m with
    undoStack := if MAX_UNDO < pushed.length then pushed.drop 1 else pushed
    redoStack := [] }

/-- `DataModel.undo`: returns `false` and leaves the model as-is when the
undo stack is empty; otherwise pushes the current snapshot onto the redo
stack, pops the undo stack into `points`, and returns `true`. -/
def DataModel.undo (m : DataModel) : Bool × DataModel :=
  match m.undoStack.getLast? with
  | none => (false, m)
  | some prev =>
      (true, { m with
        redoStack := m.redoStack ++ [m.points]
        points := prev
        undoStack := m.undoStack.dropLast })

/-- `DataModel.redo`: symmetric to `undo` on the redo stack. -/
def DataModel.redo (m : DataModel) : Bool × DataModel :=
  match m.redoStack.getLast? with
  | none => (false, m)
  | some next =>
      (true, { m with
        undoStack := m.undoStack ++ [m.points]
        points := next
        redoStack := m.redoStack.dropLast })

/-- `DataModel.addPoint(time, amplitude)`: snapshot, push, re-sort. -/
def DataModel.addPoint (m : DataModel) (t a : ℚ) : DataModel :=
  let m' := m.saveState
  { m' with points := sortByTime (m'.points ++ [⟨t, a⟩]) }

/-- `DataModel.removePoints(pointsToRemove)`: snapshot, then filter out the
members of the given set. -/
def DataModel.removePoints (m : DataModel) (toRemove : List Point) : DataModel :=
  let m' := m.saveState
  { m' with points := m'.points.filter (fun p => decide (p ∉ toRemove)) }

/-- `DataModel.updatePoint(point, newTime, newAmplitude)`: overwrite one
point in place (identified here by its index) and re-sort; no snapshot. -/
def DataModel.updatePoint (m : DataModel) (i : ℕ) (t a : ℚ) : DataModel :=
  { m with points := sortByTime (m.points.set i ⟨t, a⟩) }

/-- `DataModel.selectPoint(point)`. -/
def DataModel.selectPoint (m : DataModel) (p : Point) : DataModel :=
  { m with selectedPoints := [], selectedPoint := some p }

/-- `DataModel.selectAllPoints()`. -/
def DataModel.selectAllPoints (m : DataModel) : DataModel :=
  { m with selectedPoints := m.points, selectedPoint := none }

/-- `DataModel.clearSelection()`. -/
def DataModel.clearSelection (m : DataModel) : DataModel :=
  { m with selectedPoints := [], selectedPoint := none }

/-- `DataModel.copySelected()`: clipboard receives value-copies of the
selection. -/
def DataModel.copySelected (m : DataModel) : DataModel :=
  { m with copiedPoints := m.selectedPoints }

/-- The paste anchor: `lastPoint ? lastPoint.time : 0`. -/
def pasteStart (m : DataModel) : ℚ :=
  match m.points.getLast? with
  | some lastPoint => lastPoint.time
  | none => 0

/-- The clipboard translated for pasting:
`time: startTime + (p.time - firstCopiedTime)`. -/
def pasteTranslated (m : DataModel) : List Point :=
  let firstCopiedTime : ℚ :=
    match m.copiedPoints.head? with
    | some c => c.time
    | none => 0
  m.copiedPoints.map fun p => ⟨pasteStart m + (p.time - firstCopiedTime), p.amplitude⟩

/-- `DataModel.pastePoints()`: no-op on an empty clipboard; otherwise
snapshot, append the translated clipboard, select the pasted points,
re-sort. -/
def DataModel.pastePoints (m : DataModel) : DataModel :=
  if m.copiedPoints = [] then m
  else
    let m' := m.saveState
    let newPoints := pasteTranslated m'
    { m' with
      points := sortByTime (m'.points ++ newPoints)
      selectedPoints := newPoints }

/-- `DataModel.loadPoints(newPoints)`: replace the sequence, clear the
selection, empty both history stacks. -/
def DataModel.loadPoints (m : DataModel) (newPoints : List Point) : DataModel :=
  { m with
    points := newPoints
    selectedPoints := []
    selectedPoint := none
    undoStack := []
    redoStack := [] }

/-- One user-triggered `DataModel` operation (the mutations reachable from
the interaction handler's mouse/keyboard paths). -/
inductive Op where
  | addPoint (t a : ℚ)
  | removePoints (toRemove : List Point)
  | updatePoint (i : ℕ) (t a : ℚ)
  | selectPoint (p : Point)
  | selectAll
  | clearSelection
  | copySelected
  | paste
  | undo
  | redo
  | load (pts : List Point)
  | save

/-- Apply one operation to the model. -/
def applyOp (m : DataModel) : Op → DataModel
  | .addPoint t a => m.addPoint t a
  | .removePoints r => m.removePoints r
  | .updatePoint i t a => m.updatePoint i t a
  | .selectPoint p => m.selectPoint p
  | .selectAll => m.selectAllPoints
  | .clearSelection => m.clearSelection
  | .copySelected => m.copySelected
  | .paste => m.pastePoints
  | .undo => (m.undo).2
  | .redo => (m.redo).2
  | .load pts => m.loadPoints pts
  | .save => m.saveState

/-- Run a sequence of operations from a starting model. -/
def runOps (ops : List Op) (m : DataModel) : DataModel := ops.foldl applyOp m

/-- The per-candidate bounds test inside `InteractionHandler.dragPoints`:
`newTime < 0 || newTime > duration || newAmp < -1 || newAmp > 1`. -/
def outOfBounds (duration dx dy : ℚ) (p : Point) : Bool :=
  decide (p.time + dx < 0) || decide (duration < p.time + dx) ||
  decide (p.amplitude + dy < -1) || decide (1 < p.amplitude + dy)

/-- `p.time += dx; p.amplitude += dy`. -/
def movePoint (dx dy : ℚ) (p : Point) : Point := ⟨p.time + dx, p.amplitude + dy⟩

/-- The multi-point-selection branch of `InteractionHandler.dragPoints`:
scan every selected point's candidate position; if any is out of bounds,
move nothing (`canMove = false`); otherwise translate every selected point
by `(dx, dy)`. -/
def dragSelected (duration dx dy : ℚ) (sel : List Point) : List Point :=
  let canMove := !(sel.any (outOfBounds duration dx dy))
  if canMove then sel.map (movePoint dx dy) else sel

/-- The `CanvasRenderer` view parameters (duration/zoom/pan live on the
data model; width and height on the canvas). -/
structure ViewState where
  duration : ℚ
  zoom : ℚ
  pan : ℚ
  width : ℚ
  height : ℚ

/-- `CanvasRenderer.visibleRange`: `duration / zoom`. -/
def visibleRange (v : ViewState) : ℚ := v.duration / v.zoom

/-- `CanvasRenderer.timeToX`: `((t - pan) / visible) * canvas.width`. -/
def timeToX (v : ViewState) (t : ℚ) : ℚ := ((t - v.pan) / visibleRange v) * v.width

/-- `CanvasRenderer.xToTime`: `pan + (x / canvas.width) * visible`. -/
def xToTime (v : ViewState) (x : ℚ) : ℚ := v.pan + (x / v.width) * visibleRange v

/-- `CanvasRenderer.amplitudeToY`: `height/2 - a * height/2`. -/
def amplitudeToY (v : ViewState) (a : ℚ) : ℚ := v.height / 2 - a * (v.height / 2)

/-- `CanvasRenderer.yToAmplitude`: `(height/2 - y) / (height/2)`. -/
def yToAmplitude (v : ViewState) (y : ℚ) : ℚ := (v.height / 2 - y) / (v.height / 2)

/-- `AudioEngine.generateBuffer`'s span:
`points[points.length - 1]?.time || duration` — the JS `||` falls back to
`duration` when the list is empty or the last time is `0` (falsy). -/
def totalTime (pts : List Point) (duration : ℚ) : ℚ :=
  match pts.getLast? with
  | some p => if p.time = 0 then duration else p.time
  | none => duration

/-- `Math.ceil(sampleRate * totalTime)`. -/
def bufferLength (pts : List Point) (duration sampleRate : ℚ) : ℤ :=
  ⌈sampleRate * totalTime pts duration⌉

/-- `nextIndex = points.findIndex(p => p.time > time)`, patched to
`points.length - 1` when the search fails (`findIndex` returns `-1`). -/
def nextIndex (pts : List Point) (t : ℚ) : ℤ :=
  match pts.findIdx? (fun p => decide (t < p.time)) with
  | some i => (i : ℤ)
  | none => (pts.length : ℤ) - 1

/-- `prevIndex = Math.max(0, nextIndex - 1)`. -/
def prevIndex (pts : List Point) (t : ℚ) : ℤ := max 0 (nextIndex pts t - 1)

/-- `p1` and `p2` of the sample loop (`undefined` modeled as `none`; a
negative index reads `undefined` out of a JS array). -/
def samplePair (pts : List Point) (t : ℚ) : Option Point × Option Point :=
  (pts[(prevIndex pts t).toNat]?,
    if nextIndex pts t < 0 then none else pts[(nextIndex pts t).toNat]?)

/-- The body of `AudioEngine.generateBuffer`'s sample loop at time `t`:
linear interpolation between `p1` and `p2` when both exist with different
times, `p1.amplitude` when only `p1` applies, `0` otherwise. -/
def sampleAt (pts : List Point) (t : ℚ) : ℚ :=
  match samplePair pts t with
  | (some q1, some q2) =>
      if q2.time ≠ q1.time then
        q1.amplitude + (q2.amplitude - q1.amplitude) * ((t - q1.time) / (q2.time - q1.time))
      else q1.amplitude
  | (some q1, none) => q1.amplitude
  | (none, _) => 0

/-- `AudioEngine.generateBuffer(points, duration)` at the given sample
rate: one sample per index `i < bufferLength` at time `i / sampleRate`. -/
def generateBuffer (pts : List Point) (duration sampleRate : ℚ) : List ℚ :=
  (List.range (bufferLength pts duration sampleRate).toNat).map
    fun (i : ℕ) => sampleAt pts ((i : ℚ) / sampleRate)

/-- The per-sample amplitude rule exactly as the specification words it,
for comparison with `sampleAt`: let `p2` be the first point with
`time > t` and `p1` its predecessor; linear interpolation when they are
distinct with different times; `p1.amplitude` when only `p1` applies
(`t` at or past the last point, or before the first point); `0` when the
sequence is empty. -/
def specAmp (pts : List Point) (t : ℚ) : ℚ :=
  match pts.findIdx? (fun p => decide (t < p.time)) with
  | some 0 =>
      match pts.head? with
      | some p => p.amplitude
      | none => 0
  | some (j + 1) =>
      match pts[j]?, pts[j + 1]? with
      | some q1, some q2 =>
          if q2.time ≠ q1.time then
            q1.amplitude + (q2.amplitude - q1.amplitude) * ((t - q1.time) / (q2.time - q1.time))
          else q1.amplitude
      | _, _ => 0
  | none =>
      match pts.getLast? with
      | some p => p.amplitude
      | none => 0

/-- `FileIO.audioBufferToWav` sample clamp: `Math.max(-1, Math.min(1, sample))`. -/
def clampSample (x : ℚ) : ℚ := max (-1) (min 1 x)

/-- The scaled sample before integer conversion:
`sample < 0 ? sample * 0x8000 : sample * 0x7fff` applied to the clamped
sample. -/
def scaleSample (x : ℚ) : ℚ :=
  if clampSample x < 0 then clampSample x * 32768 else clampSample x * 32767

/-- The serialized 16-bit value: `Math.floor(s)` of the scaled sample. -/
def pcm16 (x : ℚ) : ℤ := ⌊scaleSample x⌋

/-- Truncation toward zero, as the claim words the scaling step. -/
def truncToZero (q : ℚ) : ℤ := if q < 0 then ⌈q⌉ else ⌊q⌋

/-- The little-endian byte pair written by
`view.setInt16(pos, Math.floor(s), true)`: the value reduced to 16-bit
two's complement, low byte first. -/
def pcm16Bytes (x : ℚ) : ℤ × ℤ :=
  (pcm16 x % 65536 % 256, pcm16 x % 65536 / 256)

/-- A point-field value after `JSON.parse`: a JS number (finite numbers
modeled as rationals) or any value whose unary-plus coercion yields `NaN`
(non-numeric strings, objects, `undefined`, and non-finite results). -/
inductive JsVal where
  | num (q : ℚ)
  | nonNumeric
deriving DecidableEq

/-- The unary-plus coercion `+v`; `none` stands for `NaN`. -/
def jsToNum : JsVal → Option ℚ
  | .num q => some q
  | .nonNumeric => none

/-- One entry of an imported point array. -/
structure JsEntry where
  time : JsVal
  amplitude : JsVal
deriving DecidableEq

/-- The outcome of `JSON.parse` on the import payload: a parse failure, a
parsed value that is not an array, or an array of entries. -/
inductive JsonDoc where
  | malformed
  | notArray
  | arr (entries : List JsEntry)
deriving DecidableEq

/-- The module-level store of dataModel.js's free functions; point
coordinates are JS numbers that may be `NaN` (`none`). -/
structure FreeStore where
  points : List (Option ℚ × Option ℚ)
  copiedPoints : List (Option ℚ × Option ℚ)
  undoStack : List (List (Option ℚ × Option ℚ))
  redoStack : List (List (Option ℚ × Option ℚ))
deriving DecidableEq

/-- The free function `saveState`: push the current points, evict the
oldest when the depth exceeds the hard-coded 100, clear the redo stack. -/
def freeSaveState (s : FreeStore) : FreeStore :=
  let pushed := s.undoStack ++ [s.points]
  { s with
    undoStack := if 100 < pushed.length then pushed.drop 1 else pushed
    redoStack := [] }

/-- `importFromJSON(jsonText)`: a parse failure or a non-array payload
throws and is caught, leaving the store unchanged; otherwise every entry
is coerced with unary plus (`{time: +p.time, amplitude: +p.amplitude}`),
the sequence is replaced, and `saveState()` runs (pushing the NEW points,
as the code calls it after the assignment). -/
def importFromJSON (doc : JsonDoc) (s : FreeStore) : FreeStore :=
  match doc with
  | .malformed => s
  | .notArray => s
  | .arr entries =>
      freeSaveState
        { s with points := entries.map fun e => (jsToNum e.time, jsToNum e.amplitude) }

/-! ## Theorems -/

/-- C1: Group-move atomicity — when `dragPoints` applies deltas `(dx, dy)`
to a multi-point selection, if any selected point's candidate position
`(time + dx, amplitude + dy)` falls outside `[0, duration] × [-1, 1]`
then no selected point moves at all, and otherwise every selected point
is translated by exactly `(dx, dy)`. -/
theorem groupMoveAtomic (duration dx dy : ℚ) (sel : List Point) :
    ((∃ p ∈ sel, p.time + dx < 0 ∨ duration < p.time + dx ∨
        p.amplitude + dy < -1 ∨ 1 < p.amplitude + dy) →
      dragSelected duration dx dy sel = sel) ∧
    ((∀ p ∈ sel, 0 ≤ p.time + dx ∧ p.time + dx ≤ duration ∧
        -1 ≤ p.amplitude + dy ∧ p.amplitude + dy ≤ 1) →
      dragSelected duration dx dy sel = sel.map (movePoint dx dy)) := by
  constructor
  · rintro ⟨p, hp, hout⟩
    have hany : sel.any (outOfBounds duration dx dy) = true := by
      rw [List.any_eq_true]
      refine ⟨p, hp, ?_⟩
      unfold outOfBounds
      rcases hout with h | h | h | h <;> simp [h]
    simp [dragSelected, hany]
  · intro hall
    have hany : sel.any (outOfBounds duration dx dy) = false := by
      rw [List.any_eq_false]
      intro p hp
      obtain ⟨h1, h2, h3, h4⟩ := hall p hp
      unfold outOfBounds
      simp [not_lt.mpr h1, not_lt.mpr h2, not_lt.mpr h3, not_lt.mpr h4]
    simp [dragSelected, hany]

/-- C1 witness: with selection `{A(time = 0.1), B(time = 9.99)}` and
duration 10, the delta `dTime = 0.02` would push B to 10.01 and moves
nothing, while `dTime = 0.01` keeps every candidate in bounds and
translates both points. -/
theorem groupMoveAtomicWitness :
    dragSelected 10 (1/50) 0 [⟨1/10, 0⟩, ⟨999/100, 0⟩] = [⟨1/10, 0⟩, ⟨999/100, 0⟩] ∧
    dragSelected 10 (1/100) 0 [⟨1/10, 0⟩, ⟨999/100, 0⟩] =
      [⟨1/10, 0⟩, ⟨999/100, 0⟩].map (movePoint (1/100) 0) := by
  constructor
  · exact (groupMoveAtomic 10 (1/50) 0 [⟨1/10, 0⟩, ⟨999/100, 0⟩]).1
      ⟨⟨999/100, 0⟩, by with_unfolding_all decide, Or.inr (Or.inl (by norm_num))⟩
  · exact (groupMoveAtomic 10 (1/100) 0 [⟨1/10, 0⟩, ⟨999/100, 0⟩]).2
      (by with_unfolding_all decide)

/-- C7: with nonzero duration, zoom, width and height, the time/X and
amplitude/Y conversions are exact mutual inverses:
`timeToX (xToTime x) = x` and `amplitudeToY (yToAmplitude y) = y`. -/
theorem coordRoundTrip (v : ViewState) (x y : ℚ)
    (hd : v.duration ≠ 0) (hz : v.zoom ≠ 0) (hw : v.width ≠ 0) (hh : v.height ≠ 0) :
    timeToX v (xToTime v x) = x ∧ amplitudeToY v (yToAmplitude v y) = y := by
  have hv : visibleRange v ≠ 0 := div_ne_zero hd hz
  constructor
  · unfold timeToX xToTime
    field_simp
    ring
  · unfold amplitudeToY yToAmplitude
    field_simp

/-- C7 witness: the round trips at the concrete view
(duration 10, zoom 10, pan 0, 800×400 canvas), x = 123, y = 77. -/
theorem coordRoundTripWitness :
    timeToX ⟨10, 10, 0, 800, 400⟩ (xToTime ⟨10, 10, 0, 800, 400⟩ 123) = 123 ∧
    amplitudeToY ⟨10, 10, 0, 800, 400⟩ (yToAmplitude ⟨10, 10, 0, 800, 400⟩ 77) = 77 :=
  coordRoundTrip ⟨10, 10, 0, 800, 400⟩ 123 77
    (by norm_num) (by norm_num) (by norm_num) (by norm_num)

/-- C10: `loadPoints` installs exactly the given list, clears both
selection fields, and empties both history stacks; consequently an
immediately following `undo()` or `redo()` returns `false` and leaves the
model unchanged — a load cannot be undone. -/
theorem loadPointsResets (m : DataModel) (newPoints : List Point) :
    (m.loadPoints newPoints).points = newPoints ∧
    (m.loadPoints newPoints).selectedPoints = [] ∧
    (m.loadPoints newPoints).selectedPoint = none ∧
    (m.loadPoints newPoints).undoStack = [] ∧
    (m.loadPoints newPoints).redoStack = [] ∧
    (m.loadPoints newPoints).undo = (false, m.loadPoints newPoints) ∧
    (m.loadPoints newPoints).redo = (false, m.loadPoints newPoints) :=
  ⟨rfl, rfl, rfl, rfl, rfl, rfl, rfl⟩

/-- A model with one point, that point selected both ways, and a
non-empty undo stack. -/
def selModel : DataModel :=
  { points := [⟨1, 0⟩], selectedPoints := [⟨1, 0⟩], selectedPoint := some ⟨1, 0⟩
    copiedPoints := [], undoStack := [[]], redoStack := []
    duration := 10, zoom := 10, pan := 0 }

/-- C4 counterexample: a successful `undo()` (non-empty undo stack, the
sequence is replaced) leaves both the multi-point selection and the single
selected point exactly as they were — the selection is not cleared. -/
theorem undoKeepsSelectionCounterexample :
    (selModel.undo).1 = true ∧
    ((selModel.undo).2).selectedPoints = [⟨1, 0⟩] ∧
    ((selModel.undo).2).selectedPoint = some ⟨1, 0⟩ ∧
    ([(⟨1, 0⟩ : Point)] ≠ []) := by with_unfolding_all decide

/-- C4 amended: `undo()` and `redo()` pop their stack, push the current
snapshot to the opposite stack and replace the sequence — returning
`false` when the source stack is empty — but they leave the active
selection untouched (neither the selection set nor the single selected
point is cleared). -/
theorem undoRedoKeepSelection (m : DataModel) :
    ((m.undo).2).selectedPoints = m.selectedPoints ∧
    ((m.undo).2).selectedPoint = m.selectedPoint ∧
    ((m.redo).2).selectedPoints = m.selectedPoints ∧
    ((m.redo).2).selectedPoint = m.selectedPoint ∧
    (m.undoStack = [] → m.undo = (false, m)) ∧
    (m.redoStack = [] → m.redo = (false, m)) := by
  refine ⟨?_, ?_, ?_, ?_, ?_, ?_⟩
  · cases h : m.undoStack.getLast? <;> simp [DataModel.undo, h]
  · cases h : m.undoStack.getLast? <;> simp [DataModel.undo, h]
  · cases h : m.redoStack.getLast? <;> simp [DataModel.redo, h]
  · cases h : m.redoStack.getLast? <;> simp [DataModel.redo, h]
  · intro he; simp [DataModel.undo, he]
  · intro he; simp [DataModel.redo, he]

/-- C4 witness: on the fresh model both stacks are empty, so `undo()` and
`redo()` are `false` no-ops (selection trivially untouched). -/
theorem undoRedoKeepSelectionWitness :
    initModel.undo = (false, initModel) ∧ initModel.redo = (false, initModel) :=
  ⟨(undoRedoKeepSelection initModel).2.2.2.2.1 rfl,
   (undoRedoKeepSelection initModel).2.2.2.2.2 rfl⟩

/-- A model with an empty sequence and a clipboard whose first time
is 1/2. -/
def emptySeqClipModel : DataModel :=
  { points := [], selectedPoints := [], selectedPoint := none
    copiedPoints := [⟨1/2, 1/5⟩], undoStack := [], redoStack := []
    duration := 10, zoom := 10, pan := 0 }

/-- C5 counterexample: pasting into an empty sequence lands the first
pasted point at time 0 (`lastPoint ? lastPoint.time : 0`), not at the
clipboard's own first time 1/2. -/
theorem pasteEmptyCounterexample :
    (emptySeqClipModel.pastePoints).points = [⟨0, 1/5⟩] ∧
    ((1 : ℚ)/2 ≠ 0) := by with_unfolding_all decide

/-- C5 amended: with a non-empty clipboard, `pastePoints` pushes a history
snapshot, appends value-copies of the clipboard translated so that the
first pasted point's time equals the current last point's time — or time 0
(not the clipboard's own first time) when the sequence is empty — re-sorts
the sequence, and makes the pasted points the new selection. -/
theorem pastePointsSpec (m : DataModel) (c : Point) (cs : List Point)
    (h : m.copiedPoints = c :: cs) :
    (m.pastePoints).points = sortByTime (m.points ++ pasteTranslated m) ∧
    (m.pastePoints).selectedPoints = pasteTranslated m ∧
    ((pasteTranslated m).head?).map Point.time = some (pasteStart m) ∧
    List.Sorted timeLE ((m.pastePoints).points) ∧
    (m.pastePoints).undoStack = (m.saveState).undoStack ∧
    (m.pastePoints).redoStack = [] := by
  have hne : ¬ m.copiedPoints = [] := by simp [h]
  have hsave_pts : (m.saveState).points = m.points := rfl
  have hsave_cp : (m.saveState).copiedPoints = m.copiedPoints := rfl
  have htr : pasteTranslated m.saveState = pasteTranslated m := rfl
  refine ⟨?_, ?_, ?_, ?_, ?_, ?_⟩
  · simp [DataModel.pastePoints, hne, htr, hsave_pts]
  · simp [DataModel.pastePoints, hne, htr]
  · simp [pasteTranslated, h, sub_self]
  · simp only [DataModel.pastePoints, hne, if_neg hne]
    exact List.sorted_insertionSort timeLE _
  · simp [DataModel.pastePoints, hne]
  · simp [DataModel.pastePoints, hne, DataModel.saveState]

/-- A model with one point at time 1 and a two-point clipboard starting
at time 3. -/
def pasteWitModel : DataModel :=
  { points := [⟨1, 0⟩], selectedPoints := [], selectedPoint := none
    copiedPoints := [⟨3, 1/2⟩, ⟨4, 1/4⟩], undoStack := [], redoStack := []
    duration := 10, zoom := 10, pan := 0 }

/-- C5 witness: the amended paste contract applied to a concrete model
whose sequence ends at time 1, with every component evaluated. -/
theorem pastePointsSpecWitness :
    (pasteWitModel.pastePoints).points = [⟨1, 0⟩, ⟨1, 1/2⟩, ⟨2, 1/4⟩] ∧
    (pasteWitModel.pastePoints).selectedPoints = [⟨1, 1/2⟩, ⟨2, 1/4⟩] ∧
    ((pasteTranslated pasteWitModel).head?).map Point.time = some 1 ∧
    (pasteWitModel.pastePoints).undoStack = [[⟨1, 0⟩]] := by
  have h := pastePointsSpec pasteWitModel ⟨3, 1/2⟩ [⟨4, 1/4⟩] rfl
  refine ⟨?_, ?_, ?_, ?_⟩
  · rw [h.1]; with_unfolding_all decide
  · rw [h.2.1]; with_unfolding_all decide
  · rw [h.2.2.1]; with_unfolding_all decide
  · rw [h.2.2.2.2.1]; with_unfolding_all decide

/-- The free-function module store with nothing in it. -/
def emptyStore : FreeStore := ⟨[], [], [], []⟩

/-- C6 counterexample: an import entry with a non-numeric time is not
rejected — the sequence is replaced by a NaN-time point and a history
snapshot is pushed, so the store changes (no all-or-nothing validation). -/
theorem importNoValidationCounterexample :
    importFromJSON (.arr [⟨.nonNumeric, .num 1⟩]) emptyStore ≠ emptyStore ∧
    (importFromJSON (.arr [⟨.nonNumeric, .num 1⟩]) emptyStore).points = [(none, some 1)] := by
  with_unfolding_all decide

/-- C6 amended: `importFromJSON` rejects only unparsable JSON and
non-array payloads (store left unchanged); array entries are coerced with
unary plus — non-numeric or non-finite fields become NaN — and the import
always replaces the sequence and pushes a snapshot of the new points,
clearing the redo stack. -/
theorem importFromJSONSpec (doc : JsonDoc) (s : FreeStore) :
    (doc = .malformed → importFromJSON doc s = s) ∧
    (doc = .notArray → importFromJSON doc s = s) ∧
    (∀ entries, doc = .arr entries →
      (importFromJSON doc s).points =
        entries.map (fun e => (jsToNum e.time, jsToNum e.amplitude)) ∧
      (importFromJSON doc s).redoStack = [] ∧
      (importFromJSON doc s).undoStack.getLast? =
        some (entries.map (fun e => (jsToNum e.time, jsToNum e.amplitude)))) := by
  refine ⟨fun h => by subst h; rfl, fun h => by subst h; rfl, ?_⟩
  intro entries h
  subst h
  refine ⟨rfl, rfl, ?_⟩
  show (freeSaveState _).undoStack.getLast? = _
  unfold freeSaveState
  dsimp only
  split
  · next hlen =>
    have hnil : emptyStore.undoStack ≠ [] ∨ True := Or.inr trivial
    rw [List.drop_one, List.tail_append_of_ne_nil, List.getLast?_concat]
    intro hemp
    rw [hemp] at hlen
    simp at hlen
  · exact List.getLast?_concat _

/-- C6 witness: a malformed payload leaves the empty store unchanged; a
well-formed two-entry payload with one non-numeric amplitude is imported
as-is, NaN included. -/
theorem importFromJSONSpecWitness :
    importFromJSON .malformed emptyStore = emptyStore ∧
    (importFromJSON (.arr [⟨.num 2, .nonNumeric⟩]) emptyStore).points = [(some 2, none)] := by
  constructor
  · exact (importFromJSONSpec .malformed emptyStore).1 rfl
  · rw [((importFromJSONSpec (.arr [⟨.num 2, .nonNumeric⟩]) emptyStore).2.2 _ rfl).1]
    with_unfolding_all decide

/-- C2 counterexample: a single point at time 1 with duration 10 at
sample rate 1 produces a 1-sample buffer, not the
`ceil(sampleRate * max(duration, lastPointTime)) = 10` samples the claim
requires. -/
theorem generateBufferLengthCounterexample :
    (generateBuffer [⟨1, 0⟩] 10 1).length = 1 ∧
    (⌈(1 : ℚ) * max 10 1⌉).toNat = 10 ∧ (1 : ℕ) ≠ 10 := by
  with_unfolding_all decide

/-- C2 amended: the buffer length is `ceil(sampleRate * lastPointTime)`
when the sequence is non-empty and its last point's time is non-zero, and
`ceil(sampleRate * duration)` otherwise (empty sequence, or last point at
time 0, via the falsy `|| duration` fallback) — the duration is ignored
whenever the last time is non-zero, even when it is smaller than the
duration. -/
theorem generateBufferLength (pts : List Point) (duration sampleRate : ℚ) :
    ((pts = [] ∨ (pts.getLast?).map Point.time = some 0) →
      (generateBuffer pts duration sampleRate).length = (⌈sampleRate * duration⌉).toNat) ∧
    (∀ p, pts.getLast? = some p → p.time ≠ 0 →
      (generateBuffer pts duration sampleRate).length = (⌈sampleRate * p.time⌉).toNat) := by
  constructor
  · rintro (rfl | h)
    · rw [generateBuffer, List.length_map, List.length_range]
      rfl
    · rw [Option.map_eq_some'] at h
      obtain ⟨p, hp, ht⟩ := h
      rw [generateBuffer, List.length_map, List.length_range, bufferLength, totalTime, hp]
      dsimp only
      rw [if_pos ht]
  · intro p hp ht
    rw [generateBuffer, List.length_map, List.length_range, bufferLength, totalTime, hp]
    dsimp only
    rw [if_neg ht]

/-- C2 witness: the amended length rule evaluated on the one-point
sequence (length 1 = ceil(1·1)) and on the empty sequence
(length 10 = ceil(1·10)). -/
theorem generateBufferLengthWitness :
    (generateBuffer [⟨1, 0⟩] 10 1).length = (⌈(1 : ℚ) * Point.time ⟨1, 0⟩⌉).toNat ∧
    (generateBuffer [] 10 1).length = (⌈(1 : ℚ) * 10⌉).toNat := by
  constructor
  · exact (generateBufferLength [⟨1, 0⟩] 10 1).2 ⟨1, 0⟩ rfl (by norm_num)
  · exact (generateBufferLength [] 10 1).1 (Or.inl rfl)

/-- C9 counterexample: the float −1/65536 clamps to itself and scales to
−1/2; the code serializes `Math.floor(−1/2) = −1`, while truncation toward
zero would give 0. -/
theorem pcm16FloorCounterexample :
    pcm16 (-(1/65536)) = -1 ∧
    truncToZero (scaleSample (-(1/65536))) = 0 ∧
    (-1 : ℤ) ≠ 0 := by
  with_unfolding_all decide

/-- C9 amended: each serialized sample is the float clamped to [-1, 1],
scaled by 32768 when negative and 32767 otherwise, then rounded toward
negative infinity (`Math.floor`, which differs from truncation toward zero
on negative non-integers); the result always fits a signed 16-bit integer
and is written as two little-endian bytes whose recombination is its
16-bit two's-complement encoding. -/
theorem pcm16Floor (x : ℚ) :
    ((pcm16 x : ℚ) ≤ scaleSample x ∧ scaleSample x < (pcm16 x : ℚ) + 1) ∧
    (-32768 ≤ pcm16 x ∧ pcm16 x ≤ 32767) ∧
    (0 ≤ (pcm16Bytes x).1 ∧ (pcm16Bytes x).1 < 256 ∧
     0 ≤ (pcm16Bytes x).2 ∧ (pcm16Bytes x).2 < 256 ∧
     (pcm16Bytes x).1 + 256 * (pcm16Bytes x).2 = pcm16 x % 65536) := by
  have hc1 : -1 ≤ clampSample x := le_max_left _ _
  have hc2 : clampSample x ≤ 1 := max_le (by norm_num) (min_le_left _ _)
  have hlo : (-32768 : ℚ) ≤ scaleSample x := by
    unfold scaleSample
    split_ifs with h
    · nlinarith
    · nlinarith
  have hhi : scaleSample x ≤ 32767 := by
    unfold scaleSample
    split_ifs with h
    · nlinarith
    · nlinarith
  refine ⟨⟨Int.floor_le _, Int.lt_floor_add_one _⟩, ⟨?_, ?_⟩, ?_⟩
  · have hcast : ((-32768 : ℤ) : ℚ) ≤ scaleSample x := by exact_mod_cast hlo
    exact Int.le_floor.mpr hcast
  · have hcast : scaleSample x ≤ ((32767 : ℤ) : ℚ) := by exact_mod_cast hhi
    calc pcm16 x ≤ ⌊((32767 : ℤ) : ℚ)⌋ := Int.floor_le_floor hcast
    _ = 32767 := Int.floor_intCast _
  · simp only [pcm16Bytes]
    omega

/-- The history-size invariant: the undo and redo stacks together never
hold more than `MAX_UNDO` snapshots. -/
def histInv (m : DataModel) : Prop :=
  m.undoStack.length + m.redoStack.length ≤ MAX_UNDO

theorem histInv_saveState (m : DataModel) (h : histInv m) : histInv m.saveState := by
  unfold histInv DataModel.saveState at *
  dsimp only
  split
  · simp only [List.length_drop, List.length_append, List.length_cons, List.length_nil]
    omega
  · next hle =>
    simp only [List.length_append, List.length_cons, List.length_nil, List.length_nil] at *
    omega

theorem histInv_applyOp (m : DataModel) (op : Op) (h : histInv m) :
    histInv (applyOp m op) := by
  cases op with
  | addPoint t a => exact histInv_saveState m h
  | removePoints r => exact histInv_saveState m h
  | updatePoint i t a => exact h
  | selectPoint p => exact h
  | selectAll => exact h
  | clearSelection => exact h
  | copySelected => exact h
  | paste =>
    show histInv m.pastePoints
    unfold DataModel.pastePoints
    split
    · exact h
    · exact histInv_saveState m h
  | undo =>
    show histInv (m.undo).2
    unfold DataModel.undo
    rcases hl : m.undoStack.getLast? with _ | prev
    · exact h
    · have hne : m.undoStack ≠ [] := by
        intro he
        rw [he] at hl
        exact Option.noConfusion hl
      unfold histInv at *
      simp only [List.length_dropLast, List.length_append, List.length_cons, List.length_nil]
      have : m.undoStack.length ≠ 0 := fun h0 => hne (List.length_eq_zero.mp h0)
      omega
  | redo =>
    show histInv (m.redo).2
    unfold DataModel.redo
    rcases hl : m.redoStack.getLast? with _ | next
    · exact h
    · have hne : m.redoStack ≠ [] := by
        intro he
        rw [he] at hl
        exact Option.noConfusion hl
      unfold histInv at *
      simp only [List.length_dropLast, List.length_append, List.length_cons, List.length_nil]
      have : m.redoStack.length ≠ 0 := fun h0 => hne (List.length_eq_zero.mp h0)
      omega
  | load pts =>
    show histInv (m.loadPoints pts)
    unfold histInv DataModel.loadPoints
    simp [MAX_UNDO]
  | save => exact histInv_saveState m h

theorem histInv_runOps (ops : List Op) (m : DataModel) (h : histInv m) :
    histInv (runOps ops m) := by
  induction ops generalizing m with
  | nil => exact h
  | cons op ops ih => exact ih (applyOp m op) (histInv_applyOp m op h)

/-- C8: starting from a fresh model, after any sequence of operations the
undo stack holds at most `MAX_UNDO` snapshots; every snapshot push clears
the redo stack; and a push onto a stack already holding `MAX_UNDO`
snapshots discards the oldest and appends the new one, retaining exactly
`MAX_UNDO`. -/
theorem historyBounded :
    (∀ ops : List Op, (runOps ops initModel).undoStack.length ≤ MAX_UNDO) ∧
    (∀ m : DataModel, (m.saveState).redoStack = []) ∧
    (∀ m : DataModel, m.undoStack.length = MAX_UNDO →
      (m.saveState).undoStack = m.undoStack.tail ++ [m.points] ∧
      (m.saveState).undoStack.length = MAX_UNDO) := by
  refine ⟨?_, fun m => rfl, ?_⟩
  · intro ops
    have h := histInv_runOps ops initModel (by unfold histInv initModel; simp [MAX_UNDO])
    unfold histInv at h
    omega
  · intro m hm
    have hlen : MAX_UNDO < (m.undoStack ++ [m.points]).length := by
      simp [hm]
    have hne : m.undoStack ≠ [] := by
      intro he
      rw [he] at hm
      simp [MAX_UNDO] at hm
    constructor
    · show (if MAX_UNDO < (m.undoStack ++ [m.points]).length
          then (m.undoStack ++ [m.points]).drop 1
          else m.undoStack ++ [m.points]) = m.undoStack.tail ++ [m.points]
      rw [if_pos hlen, List.drop_one, List.tail_append_of_ne_nil hne]
    · show (if MAX_UNDO < (m.undoStack ++ [m.points]).length
          then (m.undoStack ++ [m.points]).drop 1
          else m.undoStack ++ [m.points]).length = MAX_UNDO
      rw [if_pos hlen]
      simp only [List.length_drop, List.length_append, List.length_cons, List.length_nil]
      omega

/-- A model whose undo stack already holds `MAX_UNDO` snapshots. -/
def fullHistModel : DataModel :=
  { initModel with points := [⟨2, 1⟩], undoStack := List.replicate 50 [] }

/-- C8 witness: 51 consecutive pushes from the fresh model leave exactly
50 snapshots, and one more push onto a full 50-deep stack drops the oldest
snapshot and appends the current points. -/
theorem historyBoundedWitness :
    (runOps (List.replicate 51 .save) initModel).undoStack.length ≤ MAX_UNDO ∧
    (fullHistModel.saveState).undoStack =
      fullHistModel.undoStack.tail ++ [fullHistModel.points] ∧
    (fullHistModel.saveState).undoStack.length = MAX_UNDO := by
  have h2 := historyBounded.2.2 fullHistModel (by with_unfolding_all decide)
  exact ⟨historyBounded.1 (List.replicate 51 .save), h2.1, h2.2⟩

theorem sampleAt_eq_specAmp (pts : List Point) (t : ℚ)
    (hex : ∃ p ∈ pts, t < p.time) : sampleAt pts t = specAmp pts t := by
  have hex' : ∃ x, x ∈ pts ∧ (fun p => decide (t < p.time)) x = true := by
    obtain ⟨p, hp, hpt⟩ := hex
    exact ⟨p, hp, by simpa using hpt⟩
  obtain ⟨j, hfind⟩ : ∃ i, pts.findIdx? (fun p => decide (t < p.time)) = some i :=
    ⟨_, List.findIdx?_eq_some_of_exists hex'⟩
  have hjlt : j < pts.length := (List.findIdx?_eq_some_iff_findIdx_eq.mp hfind).1
  unfold sampleAt samplePair prevIndex nextIndex specAmp
  rw [hfind]
  cases j with
  | zero =>
    have h0 : pts[0]? = some (pts.get ⟨0, hjlt⟩) := List.getElem?_eq_getElem hjlt
    have hmax : (max 0 (((0 : ℕ) : ℤ) - 1)).toNat = 0 := by omega
    have hneg : ¬ (((0 : ℕ) : ℤ) < 0) := by omega
    dsimp only
    rw [hmax, if_neg hneg, Int.toNat_natCast, h0, List.head?_eq_getElem?, h0]
    dsimp only
    rw [if_neg (by simp)]
  | succ k =>
    have hk : k < pts.length := Nat.lt_of_succ_lt hjlt
    have h1 : pts[k]? = some (pts.get ⟨k, hk⟩) := List.getElem?_eq_getElem hk
    have h2 : pts[k + 1]? = some (pts.get ⟨k + 1, hjlt⟩) := List.getElem?_eq_getElem hjlt
    have hmax : (max 0 (((k + 1 : ℕ) : ℤ) - 1)).toNat = k := by omega
    have hneg : ¬ (((k + 1 : ℕ) : ℤ) < 0) := by omega
    dsimp only
    rw [hmax, if_neg hneg, Int.toNat_natCast, h1, h2]

/-- C3: amended — the empty sequence synthesizes amplitude 0; whenever
some point lies strictly after `t` (which covers every in-buffer sample
time when the last point's time is non-zero), the sample equals the rule
as the spec words it: linear interpolation between the first later point
`p2` and its predecessor `p1` when their times differ, otherwise
`p1.amplitude` (the first point's amplitude when `t` precedes the whole
sequence); and on the concrete ramp [(0,0),(1,1)] at sample rate 4 the
buffer is exactly [0, 1/4, 1/2, 3/4] and the synthesis rule at t = 1
yields 1.  When `t` lies at or past the last point and the last two
points have different times, the code instead evaluates the same linear
formula there — extrapolating the last segment — which is settled by the
counterexample. -/
theorem sampleAtSpec (pts : List Point) (t : ℚ) :
    (sampleAt [] t = 0) ∧
    ((∃ p ∈ pts, t < p.time) → sampleAt pts t = specAmp pts t) ∧
    (generateBuffer [⟨0, 0⟩, ⟨1, 1⟩] 1 4 = [0, 1/4, 1/2, 3/4] ∧
     sampleAt [⟨0, 0⟩, ⟨1, 1⟩] 1 = 1) := by
  refine ⟨rfl, sampleAt_eq_specAmp pts t, ?_, ?_⟩
  · with_unfolding_all decide
  · with_unfolding_all decide

/-- C3 witness: the spec equivalence applied at the ramp's midpoint
t = 1/2, where the point (1,1) lies strictly later. -/
theorem sampleAtSpecWitness :
    sampleAt [⟨0, 0⟩, ⟨1, 1⟩] (1/2) = specAmp [⟨0, 0⟩, ⟨1, 1⟩] (1/2) :=
  (sampleAtSpec [⟨0, 0⟩, ⟨1, 1⟩] (1/2)).2.1
    ⟨⟨1, 1⟩, by with_unfolding_all decide, by norm_num⟩

/-- C3 counterexample: for the time-sorted sequence [(-1,0),(0,1)] with
duration 2 and sample rate 1 (the last time 0 makes the buffer span fall
back to the duration), the buffer's sample at index 1 has t = 1, at or
past the last point; the code extrapolates the final segment to amplitude
2, while the claim's rule prescribes `p1.amplitude` — 1 (the last point)
or 0 (the predecessor), under either reading. -/
theorem sampleExtrapolationCounterexample :
    sampleAt [⟨-1, 0⟩, ⟨0, 1⟩] 1 = 2 ∧
    (generateBuffer [⟨-1, 0⟩, ⟨0, 1⟩] 2 1)[1]? = some 2 ∧
    specAmp [⟨-1, 0⟩, ⟨0, 1⟩] 1 = 1 ∧
    ((2 : ℚ) ≠ 1 ∧ (2 : ℚ) ≠ 0) := by
  with_unfolding_all decide

end WaveSmith
